import Mathlib

/-!
Verification development for the cybersentinel intake and normalization
pipeline (supabase edge function audit-code, final revision of
src/unnamed/part_000, lines 347-893).

The stateful/network parts of the function are embedded by explicit
environment records:
* the completion-API call becomes a `GroqEnv` record carrying the observable
  response (ok flag, status, error text, choices presence, message content);
* `JSON.parse` becomes an oracle `List Char → ParseResult` (a library
  primitive, not code of this repository);
* the hosting-API fetches of the materializer become a `RepoEnv` record
  carrying the recursive tree listing and a per-file decoded-content oracle.
All string and regex manipulation from the source is translated to
executable functions on `List Char` / `String`.
-/

/-! ### A small model of JavaScript runtime values

Model findings elements as JS values: the upstream model output is untrusted,
so each accessed property may be undefined, null, a boolean, an integer or a
string.  Truthiness and string coercion follow the JS rules for these values.
-/

inductive JVal where
  | jundef
  | jnull
  | jbool (b : Bool)
  | jnum (n : Int)
  | jstr (s : String)
deriving DecidableEq, Repr

def truthy : JVal → Bool
  | .jundef => false
  | .jnull => false
  | .jbool b => b
  | .jnum n => n != 0
  | .jstr s => s != ""

def jsToString : JVal → String
  | .jundef => "undefined"
  | .jnull => "null"
  | .jbool true => "true"
  | .jbool false => "false"
  | .jnum n => toString n
  | .jstr s => s

def isStr : JVal → Bool
  | .jstr _ => true
  | _ => false

/-- JS `a || b` on values (used for default fields). -/
def jsOr (v dflt : JVal) : JVal := if truthy v then v else dflt

/-- The characters matched by `\s` in a JS regex (ASCII portion) and trimmed
by `String.prototype.trim`. -/
def isJsWs (c : Char) : Bool :=
  c == ' ' || c == '\t' || c == '\n' || c == '\r' || c == '\x0b' || c == '\x0c'

def jsTrimL (l : List Char) : List Char :=
  ((l.dropWhile isJsWs).reverse.dropWhile isJsWs).reverse

def jsTrim (s : String) : String := ⟨jsTrimL s.toList⟩

/-! `parseInt` on the string coercion of a JS value: skip whitespace, optional
sign, `0x` hex autodetection, longest digit prefix, NaN (`none`) if no
digits. -/

def isHexDigitCh (c : Char) : Bool :=
  c.isDigit || ('a' ≤ c && c ≤ 'f') || ('A' ≤ c && c ≤ 'F')

def hexVal (c : Char) : Nat :=
  if c.isDigit then c.toNat - 48
  else if 'a' ≤ c then c.toNat - 87
  else c.toNat - 55

def digitsToInt (base : Nat) (val : Char → Nat) (l : List Char) : Int :=
  l.foldl (fun acc c => acc * (base : Int) + (val c : Int)) 0

def parseUnsignedInt (l : List Char) : Option Int :=
  match l with
  | '0' :: 'x' :: rest =>
      let ds := rest.takeWhile isHexDigitCh
      if ds.isEmpty then none else some (digitsToInt 16 hexVal ds)
  | '0' :: 'X' :: rest =>
      let ds := rest.takeWhile isHexDigitCh
      if ds.isEmpty then none else some (digitsToInt 16 hexVal ds)
  | _ =>
      let ds := l.takeWhile Char.isDigit
      if ds.isEmpty then none else some (digitsToInt 10 (fun c => c.toNat - 48) ds)

def parseIntList : List Char → Option Int
  | '-' :: rest => (parseUnsignedInt rest).map Neg.neg
  | '+' :: rest => parseUnsignedInt rest
  | l => parseUnsignedInt l

/-- Model of `parseInt(x)` after JS string coercion; `none` models NaN. -/
def jsParseInt (s : String) : Option Int := parseIntList (s.toList.dropWhile isJsWs)

/-! ### Generic scanning helpers (Boolean, executable) -/

/-- Test `prefB pat l`: `pat` is a prefix of `l`. -/
def prefB : List Char → List Char → Bool
  | [], _ => true
  | _ :: _, [] => false
  | a :: as, b :: bs => a == b && prefB as bs

/-- Test `containsSub pat l`: `pat` occurs as a contiguous substring of `l`
(the JS regex test of a plain pattern). -/
def containsSub (pat : List Char) : List Char → Bool
  | [] => pat.isEmpty
  | c :: rest => prefB pat (c :: rest) || containsSub pat rest

/-! ### Request Validator (source lines 384-405, `validatePayload`) -/

def isWordChar (c : Char) : Bool := c.isAlphanum || c == '_'

def isOwnerChar (c : Char) : Bool := isWordChar c || c == '-'

def isRepoChar (c : Char) : Bool := isWordChar c || c == '-' || c == '.'

/-- One attempt of `/github\.com\/[\w-]+\/[\w.-]+/` at the start of `s`:
the literal, a maximal nonempty `[\w-]` run, a slash, a nonempty `[\w.-]`
run.  (`[\w-]+` is followed by `\/`; every backtracking cut inside the run
ends before another word character, never before `/`, so only the maximal
run can be followed by the slash.) -/
def ghTestAt (s : List Char) : Bool :=
  prefB "github.com/".toList s &&
    (let r1 := s.drop 11
     let owner := r1.takeWhile isOwnerChar
     !owner.isEmpty &&
       (match r1.dropWhile isOwnerChar with
        | '/' :: r3 => !(r3.takeWhile isRepoChar).isEmpty
        | _ => false))

def ghTest : List Char → Bool
  | [] => false
  | c :: rest => ghTestAt (c :: rest) || ghTest rest

/-- Model of `githubPattern.test(content)` from `validatePayload`. -/
def githubPatternTest (s : String) : Bool := ghTest s.toList

structure Payload where
  type_ : JVal
  content : JVal
deriving DecidableEq, Repr

/-- Embedding of `validatePayload` (source lines 384-405): `some msg` is a rejection,
`none` means valid. -/
def validatePayload (p : Payload) : Option String :=
  if !(truthy p.type_) || !(p.type_ == JVal.jstr "repo" || p.type_ == JVal.jstr "snippet") then
    some "Invalid type. Must be \"repo\" or \"snippet\""
  else if !(truthy p.content) || !(isStr p.content) then
    some "Missing or invalid content"
  else if p.type_ == JVal.jstr "repo" then
    if githubPatternTest (jsToString p.content) then none
    else some "Invalid GitHub repository URL format"
  else
    if (jsTrim (jsToString p.content)).length < 10 then
      some "Code snippet too short (minimum 10 characters)"
    else if (jsToString p.content).length > 50000 then
      some "Code snippet too large (maximum 50KB)"
    else none

example : validatePayload ⟨.jstr "snippet", .jstr "abcdefghij"⟩ = none := by decide
example : validatePayload ⟨.jstr "repo", .jstr "https://github.com/a/b"⟩ = none := by decide
example : validatePayload ⟨.jstr "other", .jstr "abcdefghij"⟩ ≠ none := by decide

/-! ### Finding Normalizer (source lines 408-600, `analyzeCode`) -/

inductive Severity where
  | Critical
  | High
  | Low
deriving DecidableEq, Repr

/-- The `AuditResult` interface (source lines 375-381). -/
structure AuditResult where
  file : String
  line : Int
  severity : Severity
  issue : String
  fix_suggestion : String
deriving DecidableEq, Repr

/-- Model of `String.prototype.slice(0, n)` (`s.slice(0, 250)` and `.slice(0, 400)`). -/
def takeStr (n : Nat) (s : String) : String := ⟨s.toList.take n⟩

/-- One parsed element of the model's JSON array, with the five accessed
properties; an absent property reads as `jundef`. -/
structure RawElem where
  file : JVal
  line : JVal
  severity : JVal
  issue : JVal
  fix_suggestion : JVal
deriving DecidableEq, Repr

/-- The filter `(f) => f.issue && f.severity` (source line 568). -/
def keepElem (f : RawElem) : Bool := truthy f.issue && truthy f.severity

/-- The per-element map (source lines 569-575). -/
def normalizeElem (f : RawElem) : AuditResult :=
  { file := jsToString (jsOr f.file (.jstr "unknown"))
    line :=
      max 1
        (match jsParseInt (jsToString f.line) with
         | none => 1
         | some v => if v = 0 then 1 else v)
    severity :=
      if f.severity == JVal.jstr "Critical" then .Critical
      else if f.severity == JVal.jstr "High" then .High
      else .Low
    issue := takeStr 250 (jsToString f.issue)
    fix_suggestion :=
      takeStr 400 (jsToString (jsOr f.fix_suggestion (.jstr "Review and address this vulnerability"))) }

/-- Embedding of `findings.filter(...).map(...)` (source lines 567-575). -/
def validatedFindings (elems : List RawElem) : List AuditResult :=
  (elems.filter keepElem).map normalizeElem

/-! Markdown-fence stripping (source lines 520-523):
a global replace of `/```javascript\s*/gi` and `/```/g` by the empty
string, then a trim. -/

def lcChar (c : Char) : Char := c.toLower

/-- Case-insensitive prefix test against a lowercase pattern. -/
def prefCI (patLower : List Char) (s : List Char) : Bool :=
  prefB patLower (s.map lcChar |>.take patLower.length)

def fenceJsPat : List Char := "```javascript".toList

/-- Fuel-driven scanner for the global replace of `/```javascript\s*/gi`
with the empty string.  Each step consumes at least one character
(a match consumes 13 plus the whitespace run), so `fuel = l.length` never
runs out; the fuel phrasing keeps the definition structurally recursive and
kernel-executable. -/
def replFenceGo : Nat → List Char → List Char
  | 0, l => l
  | _ + 1, [] => []
  | fuel + 1, c :: rest =>
    if prefCI fenceJsPat (c :: rest) then
      replFenceGo fuel (((c :: rest).drop fenceJsPat.length).dropWhile isJsWs)
    else
      c :: replFenceGo fuel rest

def replFence (l : List Char) : List Char := replFenceGo l.length l

def ticksPat : List Char := "```".toList

/-- Global replace of `/```/g` with the empty string, same fuel phrasing. -/
def replTicksGo : Nat → List Char → List Char
  | 0, l => l
  | _ + 1, [] => []
  | fuel + 1, c :: rest =>
    if prefB ticksPat (c :: rest) then
      replTicksGo fuel ((c :: rest).drop ticksPat.length)
    else
      c :: replTicksGo fuel rest

def replTicks (l : List Char) : List Char := replTicksGo l.length l

/-- The cleaned completion text (source lines 520-523). -/
def cleanedContent (raw : String) : List Char := jsTrimL (replTicks (replFence raw.toList))

/-- Embedding of `content.match(/\[[\s\S]*\]/)` (source line 527).  The regex, at its
leftmost viable start, greedily spans from the first `[` to the last `]` of
the text; there is no match when no `]` follows any `[`.  Equivalently: cut
the text at its first `[`; if some `]` occurs afterwards, the match runs
through the last `]` of the whole text. -/
def extractArr (l : List Char) : Option (List Char) :=
  let rest := l.dropWhile (· != '[')
  if rest.isEmpty then none
  else
    let post := rest.reverse.takeWhile (· != ']')
    if post.length = rest.length then none
    else some (rest.take (rest.length - post.length))

example : extractArr "x [1] y".toList = some "[1]".toList := by decide
example : extractArr "[1] and [2]".toList = some "[1] and [2]".toList := by decide
example : extractArr "] none [".toList = none := by decide
example : extractArr "no brackets".toList = none := by decide

/-! The JSON repair pass (source lines 541-545):
`,\s*]` to `]`, `,\s*}` to `}`, single quotes to double quotes, newlines
to spaces.  For `/,\s*]/` the greedy `\s*` run contains no `]`, so the
regex matches exactly when the first non-whitespace character after the
comma is the closer. -/

def replCCGo (close : Char) : Nat → List Char → List Char
  | 0, l => l
  | _ + 1, [] => []
  | fuel + 1, c :: rest =>
    if c == ',' then
      match rest.dropWhile isJsWs with
      | d :: r3 =>
        if d == close then close :: replCCGo close fuel r3
        else c :: replCCGo close fuel rest
      | [] => c :: replCCGo close fuel rest
    else c :: replCCGo close fuel rest

def replCommaClose (close : Char) (l : List Char) : List Char := replCCGo close l.length l

def repairJson (l : List Char) : List Char :=
  ((replCommaClose '}' (replCommaClose ']' l)).map
      (fun c => if c == Char.ofNat 39 then '"' else c)).map
    (fun c => if c == '\n' then ' ' else c)

example : repairJson "[1, 2,]".toList = "[1, 2]".toList := by decide

/-- The observable outcome of `JSON.parse` on a given text: an array of
elements, a non-array JSON value, or a thrown parse error. -/
inductive ParseResult where
  | arr (elems : List RawElem)
  | nonArray
  | err

/-- The observable behavior of the completion-API interaction inside
`analyzeCode`: credential presence, the HTTP response, and the extracted
message content. -/
structure GroqEnv where
  hasKey : Bool
  respOk : Bool
  respStatus : Nat
  respErrorText : String
  hasChoices : Bool
  messageContent : Option String

/-- Synthetic finding returned when no API key is configured
(source lines 413-419). -/
def keyMissingFinding : AuditResult :=
  { file := "configuration"
    line := 0
    severity := .Low
    issue := "AI API key not configured"
    fix_suggestion := "Set GROQ_API_KEY in Supabase secrets" }

/-- Synthetic finding produced by the outer catch of `analyzeCode`
(source lines 592-598), with the caught error message interpolated. -/
def errorFinding (msg : String) : AuditResult :=
  { file := "error"
    line := 0
    severity := .Low
    issue := "Security analysis failed"
    fix_suggestion := "Error: " ++ msg ++ ". Check Edge Function logs." }

/-- Synthetic finding returned when the repair re-parse fails
(source lines 551-557). -/
def parserFinding : AuditResult :=
  { file := "parser"
    line := 0
    severity := .Low
    issue := "Failed to parse AI response"
    fix_suggestion := "Check Edge Function logs for details" }

/-- Message of the error thrown on a non-success completion-API status
(source line 504). -/
def groqErrMsg (env : GroqEnv) : String :=
  "Groq API returned " ++ toString env.respStatus ++ ": " ++ env.respErrorText

/-- Message of the TypeError raised when the repair pass calls `.replace`
on a RegExp match array (`content = jsonMatch` at source line 529 stores the
match array, and `Array.prototype` has no `replace`). -/
def replaceTypeErrMsg : String := "content.replace is not a function"

/-- Embedding of `analyzeCode` (source lines 408-600).  When the bracket extraction
matched, `content` is the match array; `JSON.parse(content)` coerces it back
to the matched text, but a parse failure then reaches
`content.replace(...)`, which throws a TypeError that the outer catch turns
into `errorFinding`. -/
def analyzeCode (env : GroqEnv) (jsonParse : List Char → ParseResult)
    (codeContent : String) : List AuditResult :=
  if env.hasKey = false then [keyMissingFinding]
  else if env.respOk = false then [errorFinding (groqErrMsg env)]
  else if env.hasChoices = false then []
  else
    let _truncatedCode := takeStr 100000 codeContent
    let raw : String :=
      match env.messageContent with
      | none => "[]"
      | some s => if s == "" then "[]" else s
    let cleaned := cleanedContent raw
    let extracted := extractArr cleaned
    let text :=
      match extracted with
      | some m => m
      | none => cleaned
    match jsonParse text with
    | .arr elems => validatedFindings elems
    | .nonArray => []
    | .err =>
      match extracted with
      | some _ => [errorFinding replaceTypeErrMsg]
      | none =>
        match jsonParse (repairJson text) with
        | .arr elems => validatedFindings elems
        | .nonArray => []
        | .err => [parserFinding]

/-! ### Repository Materializer (source lines 607-795, `fetchGitHubRepo`) -/

/-- One entry of the recursive tree listing consumed from the hosting API. -/
structure TreeItem where
  path : String
  type_ : String
  url : String
deriving DecidableEq, Repr

def lowers (s : String) : List Char := s.toList.map lcChar

/-- Case-insensitive substring test, for the `/.../i` priority patterns. -/
def containsCI (pat : String) (path : String) : Bool :=
  containsSub (lowers pat) (lowers path)

/-- Case-sensitive substring test, for the unanchored exclusion patterns. -/
def containsS (pat : String) (path : String) : Bool :=
  containsSub pat.toList path.toList

/-- Suffix test, for the `$`-anchored patterns and extension checks. -/
def endsWithB (suf : String) (path : String) : Bool :=
  prefB suf.toList.reverse path.toList.reverse

/-- Test `findNoNL pat l`: `pat` occurs in `l` at a position reachable without
crossing a newline (a JS `.` does not match `\n`). -/
def findNoNL (pat : List Char) : List Char → Bool
  | [] => pat.isEmpty
  | c :: rest => prefB pat (c :: rest) || (c != '\n' && findNoNL pat rest)

def seqScan (p1 p2 : List Char) : List Char → Bool
  | [] => false
  | c :: rest =>
    (prefB p1 (c :: rest) && findNoNL p2 ((c :: rest).drop p1.length)) || seqScan p1 p2 rest

/-- Model of `/api\/.*key/i`: an occurrence of `api/` followed, with no intervening
newline, by `key`, case-insensitively. -/
def apiKeyPat (path : String) : Bool :=
  seqScan "api/".toList "key".toList (lowers path)

/-- Model of `highPriorityPatterns.some(p => p.test(item.path))` (source lines 667-679). -/
def highPriorityPath (p : String) : Bool :=
  containsCI "auth" p || containsCI "login" p || containsCI "signin" p ||
  containsCI "signup" p || containsCI "jwt" p || containsCI "token" p ||
  containsCI "password" p || containsCI "session" p || containsCI "credential" p ||
  containsCI "oauth" p || apiKeyPat p

/-- Model of `mediumPriorityPatterns.some(...)` (source lines 681-690). -/
def mediumPriorityPath (p : String) : Bool :=
  containsCI "middleware" p || containsCI "route" p || containsCI "api" p ||
  containsCI "security" p || containsCI "config" p || containsCI ".env" p ||
  containsCI "database" p || containsCI "db" p

/-- Model of `excludePatterns.some(...)` (source lines 693-717).  `/\.test\.[jt]sx?$/`
and `/\.spec\.[jt]sx?$/` expand to the four suffixes each; `/test\//i` is the
only case-insensitive exclusion. -/
def excludedPath (p : String) : Bool :=
  containsS "node_modules/" p || containsS ".git/" p || containsS "dist/" p ||
  containsS "build/" p || containsS "out/" p || containsS ".next/" p ||
  containsS "coverage/" p || containsS ".vscode/" p || containsS ".idea/" p ||
  containsS "__pycache__/" p || containsS ".pytest_cache/" p ||
  containsS "venv/" p || containsS "env/" p || containsS "__tests__/" p ||
  endsWithB ".test.js" p || endsWithB ".test.ts" p || endsWithB ".test.jsx" p ||
  endsWithB ".test.tsx" p ||
  endsWithB ".spec.js" p || endsWithB ".spec.ts" p || endsWithB ".spec.jsx" p ||
  endsWithB ".spec.tsx" p ||
  containsCI "test/" p ||
  endsWithB "package-lock.json" p || endsWithB "yarn.lock" p ||
  endsWithB "pnpm-lock.yaml" p ||
  containsS ".min." p || containsS ".bundle." p || endsWithB ".map" p

/-- Model of `supportedExtensions.some(ext => item.path.endsWith(ext))`
(source line 719). -/
def supportedExt (p : String) : Bool :=
  endsWithB ".js" p || endsWithB ".ts" p || endsWithB ".py" p ||
  endsWithB ".jsx" p || endsWithB ".tsx" p || endsWithB ".go" p ||
  endsWithB ".java" p || endsWithB ".php" p || endsWithB ".rb" p

/-- The categorization loop (source lines 726-747): skip non-blobs, skip
excluded paths, skip unsupported extensions, then place each remaining item
in exactly one of the high / medium / regular tiers, preserving tree order. -/
def categorize : List TreeItem → List TreeItem × List TreeItem × List TreeItem
  | [] => ([], [], [])
  | it :: rest =>
    let (h, m, r) := categorize rest
    if it.type_ != "blob" then (h, m, r)
    else if excludedPath it.path then (h, m, r)
    else if !supportedExt it.path then (h, m, r)
    else if highPriorityPath it.path then (it :: h, m, r)
    else if mediumPriorityPath it.path then (h, it :: m, r)
    else (h, m, it :: r)

/-- Embedding of `filesToScan` (source lines 751-755): up to 12 high, 6 medium, 2 regular. -/
def selectFiles (tree : List TreeItem) : List TreeItem :=
  (categorize tree).1.take 12 ++ (categorize tree).2.1.take 6 ++ (categorize tree).2.2.take 2

/-- A fetched source file as pushed by the loop (source lines 779-782). -/
structure SourceFile where
  file : String
  content : String
deriving DecidableEq, Repr

/-- The per-file fetch loop (source lines 762-787).  `fetchFile it` is the
decoded content of the blob behind `it.url` (`none` models a non-ok response
or a thrown fetch error, which the loop logs and skips); a decoded content
longer than 100,000 characters is skipped, not truncated. -/
def fetchFiles (items : List TreeItem) (fetchFile : TreeItem → Option String) :
    List SourceFile :=
  items.filterMap fun it =>
    match fetchFile it with
    | none => none
    | some content =>
      if content.length > 100000 then none
      else some { file := it.path, content := content }

/-! URL parsing (source lines 608-616):
`/github\.com\/([^\/]+)\/([^\/]+)/` and `repo.replace` removing the first
occurrence of `.git`. -/

/-- One attempt of the URL regex at the start of `s`: the literal
`github.com/`, a maximal nonempty run of non-`/` characters, a `/`, another
nonempty non-`/` run.  (Backtracking inside `([^\/]+)` cannot help: every
shorter cut is followed by another non-`/` character.) -/
def ghUrlAt (s : List Char) : Option (String × String) :=
  if prefB "github.com/".toList s then
    let r1 := s.drop 11
    let owner := r1.takeWhile (· != '/')
    if owner.isEmpty then none
    else
      match r1.dropWhile (· != '/') with
      | '/' :: r3 =>
        let name := r3.takeWhile (· != '/')
        if name.isEmpty then none else some (⟨owner⟩, ⟨name⟩)
      | _ => none
  else none

def ghUrlScan : List Char → Option (String × String)
  | [] => none
  | c :: rest =>
    match ghUrlAt (c :: rest) with
    | some r => some r
    | none => ghUrlScan rest

/-- Embedding of `repoUrl.match(urlPattern)` destructured to `(owner, repo)`
(source lines 608-612). -/
def matchGithubUrl (url : String) : Option (String × String) := ghUrlScan url.toList

/-- Splitter: `splitFirst pat l = some (pre, post)` splits `l` around the first
occurrence of `pat`; `none` when `pat` does not occur. -/
def splitFirst (pat : List Char) : List Char → Option (List Char × List Char)
  | [] => if pat.isEmpty then some ([], []) else none
  | c :: rest =>
    if prefB pat (c :: rest) then some ([], (c :: rest).drop pat.length)
    else
      match splitFirst pat rest with
      | some (pre, post) => some (c :: pre, post)
      | none => none

/-- Embedding of the call `repo.replace` with pattern `.git` (source line 616): a string-pattern
`String.prototype.replace` removes the FIRST occurrence only. -/
def cleanRepoName (repo : String) : String :=
  match splitFirst ".git".toList repo.toList with
  | some (pre, post) => ⟨pre ++ post⟩
  | none => repo

/-- Modelled from the spec: "strip a trailing `.git` suffix from the name"
(spec section 4.2 step 1) — removes `.git` only when it is a suffix. -/
def stripGitSuffix (name : String) : String :=
  if endsWithB ".git" name then ⟨name.toList.take (name.toList.length - 4)⟩ else name

example : cleanRepoName "repo.git" = "repo" := by decide
example : matchGithubUrl "https://github.com/me/repo" = some ("me", "repo") := by decide

/-- The observable hosting-API interaction of one materialization: metadata
and tree fetch outcomes, the tree listing, and the per-blob decoded-content
oracle. -/
structure RepoEnv where
  metaOk : Bool
  metaStatusText : String
  treeOk : Bool
  treeStatusText : String
  tree : List TreeItem
  fetchFile : TreeItem → Option String

/-- Embedding of `fetchGitHubRepo` (source lines 607-795) as a function of the URL and the
hosting-API environment; `Except.error` models a thrown error. -/
def fetchGitHubRepo (repoUrl : String) (renv : RepoEnv) :
    Except String (List SourceFile) :=
  match matchGithubUrl repoUrl with
  | none => .error "Invalid GitHub repository URL"
  | some _ =>
    if renv.metaOk = false then .error ("GitHub API error: " ++ renv.metaStatusText)
    else if renv.treeOk = false then
      .error ("Failed to fetch repository tree: " ++ renv.treeStatusText)
    else
      let files := fetchFiles (selectFiles renv.tree) renv.fetchFile
      if files.isEmpty then .error "No supported code files found in repository"
      else .ok files

/-! ### Severity Aggregator and serve handler (source lines 797-893) -/

structure Counts where
  critical : Nat
  high : Nat
  low : Nat
deriving DecidableEq, Repr

/-- One step of the `findings.reduce` accumulator (source lines 834-842):
`Critical` and `High` get their own buckets, everything else counts as low. -/
def countStep (acc : Counts) (f : AuditResult) : Counts :=
  match f.severity with
  | .Critical => { acc with critical := acc.critical + 1 }
  | .High => { acc with high := acc.high + 1 }
  | .Low => { acc with low := acc.low + 1 }

def severityCounts (findings : List AuditResult) : Counts :=
  findings.foldl countStep ⟨0, 0, 0⟩

structure Summary where
  total : Nat
  critical : Nat
  high : Nat
  low : Nat
deriving DecidableEq, Repr

/-- The response summary (source lines 875-878): `total: findings.length`
spread with the reduced severity counts. -/
def mkSummary (findings : List AuditResult) : Summary :=
  { total := findings.length
    critical := (severityCounts findings).critical
    high := (severityCounts findings).high
    low := (severityCounts findings).low }

/-- The four response shapes of the serve handler. -/
inductive ServeResult where
  | ok200 (findings : List AuditResult) (summary : Summary)
  | err400 (error : String)
  | err422 (error : String) (details : String)
  | err500 (message : String)
deriving DecidableEq, Repr

/-- Embedding of the file concatenation at source line 818. -/
def assembleCode (files : List SourceFile) : String :=
  String.intercalate "\n\n"
    (files.map fun f => "--- FILE: " ++ f.file ++ " ---\n" ++ f.content)

/-- The POST branch of the serve handler (source lines 802-881).  The
scan-history insert (lines 845-867) sits in its own try/catch, is awaited
only for its error value and never changes the response, so it has no
observable effect here. -/
def handleRequest (p : Payload) (renv : RepoEnv) (env : GroqEnv)
    (jsonParse : List Char → ParseResult) : ServeResult :=
  match validatePayload p with
  | some e => .err400 e
  | none =>
    if p.type_ == JVal.jstr "repo" then
      match fetchGitHubRepo (jsToString p.content) renv with
      | .error msg => .err422 "Failed to fetch repository" msg
      | .ok files =>
        let findings := analyzeCode env jsonParse (assembleCode files)
        .ok200 findings (mkSummary findings)
    else
      let findings := analyzeCode env jsonParse (jsToString p.content)
      .ok200 findings (mkSummary findings)

/-! ### Concrete environments, payloads and tree items used by the
witness and counterexample theorems -/

def parseNone : List Char → ParseResult := fun _ => ParseResult.err

def envBadJson : GroqEnv :=
  { hasKey := true, respOk := true, respStatus := 200, respErrorText := ""
    hasChoices := true, messageContent := some "Here is the result: [unquoted]" }

def envNoKey : GroqEnv :=
  { hasKey := false, respOk := true, respStatus := 200, respErrorText := ""
    hasChoices := true, messageContent := none }

def pSnip : Payload := ⟨.jstr "snippet", .jstr "abcdefghij"⟩

def renvTriv : RepoEnv :=
  { metaOk := true, metaStatusText := "", treeOk := true, treeStatusText := ""
    tree := [], fetchFile := fun _ => none }

def envApiFail : GroqEnv :=
  { hasKey := true, respOk := false, respStatus := 500, respErrorText := "boom"
    hasChoices := true, messageContent := none }

def elemNoSeverity : RawElem :=
  { file := .jstr "app.js", line := .jnum 3, severity := .jundef
    issue := .jstr "SQL injection via string concatenation", fix_suggestion := .jundef }

def elemMediumSeverity : RawElem :=
  { file := .jstr "a.js", line := .jnum 2, severity := .jstr "Medium"
    issue := .jstr "Reflected XSS in query echo", fix_suggestion := .jundef }

def tenSpaces : String := "          "

/-- Helper for `firstBalanced`: walk the characters after the first `[`
with the current bracket depth, accumulating the candidate in reverse. -/
def balClose (depth : Nat) (acc : List Char) : List Char → Option (List Char)
  | [] => none
  | c :: rest =>
    if c == '[' then balClose (depth + 1) (c :: acc) rest
    else if c == ']' then
      if depth = 1 then some ((c :: acc).reverse)
      else balClose (depth - 1) (c :: acc) rest
    else balClose depth (c :: acc) rest

/-- Modelled from the spec: "locate the first balanced `[...]` substring as
the candidate JSON payload" (spec section 4.3 step 5) — the segment from the
first `[` to its matching `]` at bracket depth zero. -/
def firstBalanced (l : List Char) : Option (List Char) :=
  match l.dropWhile (· != '[') with
  | '[' :: rest => balClose 1 ['['] rest
  | _ => none

example : firstBalanced "x [1] y [2]".toList = some "[1]".toList := by decide
example : firstBalanced "[[1], 2] t".toList = some "[[1], 2]".toList := by decide

def itemAuth : TreeItem := { path := "src/auth.ts", type_ := "blob", url := "" }

def treeAuth : List TreeItem := [itemAuth]

def fetchAuth : TreeItem → Option String := fun _ => some "let x = 1"

def sfAuth : SourceFile := { file := "src/auth.ts", content := "let x = 1" }

def itemAuthTest : TreeItem := { path := "src/auth.test.ts", type_ := "blob", url := "" }

/-! ### Shared helper lemmas -/

theorem takeStr_length_le (n : Nat) (s : String) : (takeStr n s).length ≤ n := by
  show (s.toList.take n).length ≤ n
  simp [List.length_take]

theorem validated_mem_bounds (elems : List RawElem) (f : AuditResult)
    (hf : f ∈ validatedFindings elems) :
    1 ≤ f.line ∧ f.issue.length ≤ 250 ∧ f.fix_suggestion.length ≤ 400 := by
  rcases List.mem_map.mp hf with ⟨e, _, rfl⟩
  refine ⟨?_, ?_, ?_⟩
  · simp only [normalizeElem]
    exact le_max_left _ _
  · simp only [normalizeElem]
    exact takeStr_length_le _ _
  · simp only [normalizeElem]
    exact takeStr_length_le _ _

theorem counts_foldl (fs : List AuditResult) (acc : Counts) :
    (fs.foldl countStep acc).critical
        = acc.critical + (fs.filter (fun f => f.severity == Severity.Critical)).length ∧
      (fs.foldl countStep acc).high
        = acc.high + (fs.filter (fun f => f.severity == Severity.High)).length ∧
      (fs.foldl countStep acc).low
        = acc.low + (fs.filter (fun f => f.severity == Severity.Low)).length := by
  induction fs generalizing acc with
  | nil => simp
  | cons f rest ih =>
    rcases hs : f.severity <;>
      simp [List.foldl_cons, countStep, hs, List.filter_cons, ih] <;> omega

theorem filter_severity_sum (fs : List AuditResult) :
    (fs.filter (fun f => f.severity == Severity.Critical)).length
      + (fs.filter (fun f => f.severity == Severity.High)).length
      + (fs.filter (fun f => f.severity == Severity.Low)).length
      = fs.length := by
  induction fs with
  | nil => simp
  | cons f rest ih =>
    rcases hs : f.severity <;> simp [List.filter_cons, hs] <;> omega

/-! ### C3 -/

/-- C3: for every findings array produced by the pipeline, including the
empty array, the response summary satisfies `total = length findings`, each
severity bucket counts exactly the findings of that severity, and
`critical + high + low = total`. -/
theorem c3_summary_consistent (findings : List AuditResult) :
    (mkSummary findings).total = findings.length ∧
      (mkSummary findings).critical
        = (findings.filter (fun f => f.severity == Severity.Critical)).length ∧
      (mkSummary findings).high
        = (findings.filter (fun f => f.severity == Severity.High)).length ∧
      (mkSummary findings).low
        = (findings.filter (fun f => f.severity == Severity.Low)).length ∧
      (mkSummary findings).critical + (mkSummary findings).high + (mkSummary findings).low
        = (mkSummary findings).total := by
  obtain ⟨hc, hh, hl⟩ := counts_foldl findings ⟨0, 0, 0⟩
  have hsum := filter_severity_sum findings
  refine ⟨rfl, ?_, ?_, ?_, ?_⟩ <;>
    (simp [mkSummary, severityCounts, hc, hh, hl]; try omega)

/-! ### C2 -/

theorem analyze_api_failure (env : GroqEnv) (jsonParse : List Char → ParseResult)
    (code : String) (hk : env.hasKey = true) (hr : env.respOk = false) :
    analyzeCode env jsonParse code = [errorFinding (groqErrMsg env)] := by
  simp [analyzeCode, hk, hr]

/-- C2: if the completion API returns a non-success HTTP status (and the
request otherwise reaches the analysis step), the endpoint still responds
200 with a report containing exactly one synthetic Low-severity finding;
a completion-API failure never produces a 500 response. -/
theorem c2_api_failure_still_200 (p : Payload) (renv : RepoEnv) (env : GroqEnv)
    (jsonParse : List Char → ParseResult)
    (hv : validatePayload p = none) (hk : env.hasKey = true) (hr : env.respOk = false)
    (hrep : p.type_ = JVal.jstr "repo" →
      ∃ fs, fetchGitHubRepo (jsToString p.content) renv = Except.ok fs) :
    ∃ f : AuditResult, f.severity = Severity.Low ∧
      handleRequest p renv env jsonParse = ServeResult.ok200 [f] (mkSummary [f]) := by
  refine ⟨errorFinding (groqErrMsg env), rfl, ?_⟩
  by_cases ht : p.type_ == JVal.jstr "repo"
  · rcases hrep (by simpa using ht) with ⟨fs, hfs⟩
    simp [handleRequest, hv, ht, hfs, analyze_api_failure env jsonParse _ hk hr]
  · simp [handleRequest, hv, ht, analyze_api_failure env jsonParse _ hk hr]

/-- Witness for C2 at a concrete snippet request and failing completion API. -/
theorem c2_witness :
    ∃ f : AuditResult, f.severity = Severity.Low ∧
      handleRequest pSnip renvTriv envApiFail parseNone
        = ServeResult.ok200 [f] (mkSummary [f]) :=
  c2_api_failure_still_200 pSnip renvTriv envApiFail parseNone (by decide) rfl rfl
    (fun h => absurd h (by decide))

/-! ### C6 -/

/-- C6 (divergence witness): with completion text `Here is the result:
[unquoted]` the bracket extraction matches, so `content` holds the RegExp
match array; `JSON.parse` throws on `[unquoted]` (modelled by the oracle
returning `err` — the real `JSON.parse` throws on this text), and the repair
pass then calls `.replace` on the array, raising a TypeError caught by the
outer handler.  The code therefore returns the single synthetic
"Security analysis failed" finding instead of applying the repair and, on
second failure, the "Failed to parse AI response" finding that the spec
describes.  No raw parse exception propagates, but the repair pass is never
retried and the returned synthetic finding is the analysis-failure one, not
the parse-failure one. -/
theorem c6_match_array_bug :
    analyzeCode envBadJson parseNone "let x = 1" = [errorFinding replaceTypeErrMsg] ∧
      errorFinding replaceTypeErrMsg ≠ parserFinding := by
  exact ⟨by decide, by decide⟩

/-! ### C1 -/

/-- C1 counterexample: the synthetic finding produced on missing credential
is returned by `analyzeCode` with `line = 0`, violating the claimed
`line ≥ 1` for synthetic findings. -/
theorem c1_counterexample :
    analyzeCode envNoKey parseNone "let x = 1" = [keyMissingFinding] ∧
      keyMissingFinding.line = 0 := by
  exact ⟨by decide, rfl⟩

/-- C1 (amended): every finding returned by `analyzeCode` has severity in
the closed enum (by construction), a nonnegative line and an issue of at
most 250 characters; findings produced by per-element normalization
additionally have `line ≥ 1` and `fix_suggestion` of at most 400 characters
— for every possible upstream model output — while the synthetic findings
(missing credential, API failure, parse failure, repair TypeError) instead
carry `line = 0` and severity Low, the API-failure one embedding the
unbounded error message in its `fix_suggestion`. -/
theorem c1_normalized_bounds (env : GroqEnv) (jsonParse : List Char → ParseResult)
    (code : String) (f : AuditResult) (hf : f ∈ analyzeCode env jsonParse code) :
    f.issue.length ≤ 250 ∧ 0 ≤ f.line ∧
      ((1 ≤ f.line ∧ f.fix_suggestion.length ≤ 400) ∨
        (f.line = 0 ∧ f.severity = Severity.Low)) := by
  have hval : ∀ elems, f ∈ validatedFindings elems →
      f.issue.length ≤ 250 ∧ 0 ≤ f.line ∧
        ((1 ≤ f.line ∧ f.fix_suggestion.length ≤ 400) ∨
          (f.line = 0 ∧ f.severity = Severity.Low)) := by
    intro elems hmem
    obtain ⟨h1, h2, h3⟩ := validated_mem_bounds elems f hmem
    exact ⟨h2, by omega, Or.inl ⟨h1, h3⟩⟩
  cases hkv : env.hasKey with
  | false =>
    simp [analyzeCode, hkv] at hf
    subst hf
    exact ⟨by decide, by decide, Or.inr ⟨rfl, rfl⟩⟩
  | true =>
    cases hrv : env.respOk with
    | false =>
      simp [analyzeCode, hkv, hrv] at hf
      subst hf
      refine ⟨?_, ?_, Or.inr ⟨rfl, rfl⟩⟩
      · show ("Security analysis failed" : String).length ≤ 250
        decide
      · show (0 : Int) ≤ 0
        decide
    | true =>
      cases hcv : env.hasChoices with
      | false => simp [analyzeCode, hkv, hrv, hcv] at hf
      | true =>
        simp only [analyzeCode, hkv, hrv, hcv, Bool.true_eq_false, if_false] at hf
        split at hf
        · exact hval _ hf
        · simp at hf
        · split at hf
          · simp at hf
            subst hf
            exact ⟨by decide, by decide, Or.inr ⟨rfl, rfl⟩⟩
          · split at hf
            · exact hval _ hf
            · simp at hf
            · simp at hf
              subst hf
              exact ⟨by decide, by decide, Or.inr ⟨rfl, rfl⟩⟩

/-- Witness for C1 (amended) at the missing-credential environment. -/
theorem c1_witness :
    keyMissingFinding.issue.length ≤ 250 ∧ 0 ≤ keyMissingFinding.line ∧
      ((1 ≤ keyMissingFinding.line ∧ keyMissingFinding.fix_suggestion.length ≤ 400) ∨
        (keyMissingFinding.line = 0 ∧ keyMissingFinding.severity = Severity.Low)) :=
  c1_normalized_bounds envNoKey parseNone "let x = 1" keyMissingFinding (by decide)

/-! ### C4 -/

/-- C4 counterexample: an element carrying an `issue` but no `severity` is
silently dropped by the filter `f.issue && f.severity`, although the claim
says an element with an issue whose severity is missing is kept with
severity coerced to Low. -/
theorem c4_counterexample :
    truthy elemNoSeverity.issue = true ∧ elemNoSeverity.severity = JVal.jundef ∧
      validatedFindings [elemNoSeverity] = [] :=
  ⟨by decide, rfl, by decide⟩

/-- C4 (amended): the Normalizer drops a parsed element exactly when its
`issue` or its `severity` is missing or falsy; an element with a truthy
issue and a truthy severity outside the closed enum is kept, with its
severity coerced to Low, never silently dropped. -/
theorem c4_drop_rule :
    (∀ (elems : List RawElem) (e : RawElem), e ∈ elems →
        truthy e.issue = true → truthy e.severity = true →
        normalizeElem e ∈ validatedFindings elems) ∧
      (∀ e : RawElem, e.severity ≠ JVal.jstr "Critical" → e.severity ≠ JVal.jstr "High" →
        (normalizeElem e).severity = Severity.Low) ∧
      (∀ e : RawElem, truthy e.issue = false ∨ truthy e.severity = false →
        validatedFindings [e] = []) := by
  refine ⟨?_, ?_, ?_⟩
  · intro elems e he hi hs
    exact List.mem_map_of_mem _ (List.mem_filter.mpr ⟨he, by simp [keepElem, hi, hs]⟩)
  · intro e hc hh
    simp [normalizeElem, beq_iff_eq, hc, hh]
  · intro e h
    rcases h with h | h <;> simp [validatedFindings, List.filter_cons, keepElem, h]

/-- Witness for C4 (amended): an out-of-enum `Medium` severity is kept and
coerced to Low; an element missing its severity is dropped. -/
theorem c4_witness :
    normalizeElem elemMediumSeverity ∈ validatedFindings [elemMediumSeverity] ∧
      (normalizeElem elemMediumSeverity).severity = Severity.Low ∧
      validatedFindings [elemNoSeverity] = [] :=
  ⟨c4_drop_rule.1 [elemMediumSeverity] elemMediumSeverity (by decide) (by decide) (by decide),
   c4_drop_rule.2.1 elemMediumSeverity (by decide) (by decide),
   c4_drop_rule.2.2 elemNoSeverity (Or.inr (by decide))⟩

/-! ### C8 -/

/-- C8 counterexample: ten spaces has raw length 10, inside [10, 50000],
yet validation rejects it as too short after trimming. -/
theorem c8_counterexample :
    tenSpaces.length = 10 ∧
      validatePayload ⟨.jstr "snippet", .jstr tenSpaces⟩
        = some "Code snippet too short (minimum 10 characters)" :=
  ⟨by decide, by decide⟩

theorem validate_snippet_str (s : String) :
    validatePayload ⟨.jstr "snippet", .jstr s⟩ =
      if s = "" then some "Missing or invalid content"
      else if (jsTrim s).length < 10 then some "Code snippet too short (minimum 10 characters)"
      else if s.length > 50000 then some "Code snippet too large (maximum 50KB)"
      else none := by
  by_cases hs : s = ""
  · subst hs; decide
  · simp [validatePayload, truthy, isStr, jsToString, hs]

/-- C8 (amended): a snippet submission passes validation exactly when its
trimmed length is at least 10 and its raw length is at most 50,000; a
whitespace-padded snippet can have raw length inside [10, 50000] and still
be rejected as too short.  Every rejection is answered with the 400
response. -/
theorem c8_snippet_validation (s : String) :
    (validatePayload ⟨.jstr "snippet", .jstr s⟩ = none ↔
        10 ≤ (jsTrim s).length ∧ s.length ≤ 50000) ∧
      (∀ (e : String) (renv : RepoEnv) (env : GroqEnv)
          (jsonParse : List Char → ParseResult),
        validatePayload ⟨.jstr "snippet", .jstr s⟩ = some e →
        handleRequest ⟨.jstr "snippet", .jstr s⟩ renv env jsonParse
          = ServeResult.err400 e) := by
  constructor
  · rw [validate_snippet_str]
    by_cases hs : s = ""
    · subst hs
      have h0 : (jsTrim "").length = 0 := by decide
      simp [h0]
    · simp only [hs, if_false]
      split_ifs with h1 h2 <;> simp <;> omega
  · intro e renv env jsonParse h
    simp [handleRequest, h]

/-- Witness for C8 (amended): a ten-letter snippet passes validation, and
the ten-space snippet is answered with the 400 rejection. -/
theorem c8_witness :
    validatePayload ⟨.jstr "snippet", .jstr "abcdefghij"⟩ = none ∧
      handleRequest ⟨.jstr "snippet", .jstr tenSpaces⟩ renvTriv envApiFail parseNone
        = ServeResult.err400 "Code snippet too short (minimum 10 characters)" :=
  ⟨(c8_snippet_validation "abcdefghij").1.mpr (by decide),
   (c8_snippet_validation tenSpaces).2 "Code snippet too short (minimum 10 characters)"
     renvTriv envApiFail parseNone (by decide)⟩

/-! ### C7 -/

theorem takeWhile_append_cons {α : Type} (p : α → Bool) (l : List α) (a : α) (t : List α)
    (hl : ∀ x ∈ l, p x = true) (ha : p a = false) :
    (l ++ a :: t).takeWhile p = l ∧ (l ++ a :: t).dropWhile p = a :: t := by
  induction l with
  | nil => simp [List.takeWhile_cons, List.dropWhile_cons, ha]
  | cons x xs ih =>
    have hx : p x = true := hl x (by simp)
    obtain ⟨ih1, ih2⟩ := ih fun y hy => hl y (by simp [hy])
    simp [List.takeWhile_cons, List.dropWhile_cons, hx, ih1, ih2]

/-- C7 counterexample: on `[1] and [2]` the code's extraction spans from the
first `[` to the last `]` (the whole text), while the first balanced
`[...]` substring described by the spec is just `[1]`. -/
theorem c7_counterexample :
    extractArr "[1] and [2]".toList = some "[1] and [2]".toList ∧
      firstBalanced "[1] and [2]".toList = some "[1]".toList ∧
      extractArr "[1] and [2]".toList ≠ firstBalanced "[1] and [2]".toList :=
  ⟨by decide, by decide, by decide⟩

/-- C7 (amended): after stripping code-fence markup, the Normalizer takes as
candidate JSON payload the substring running from the first `[` of the text
to its last `]` (the greedy regex match), so explanatory prose strictly
before the first `[` and strictly after the last `]` is discarded before
parsing; this is not the first balanced `[...]` substring when several
bracketed segments occur. -/
theorem c7_extraction_greedy (pre mid post : List Char)
    (hpre : ∀ c ∈ pre, c ≠ '[') (hpost : ∀ c ∈ post, c ≠ ']') :
    extractArr (pre ++ '[' :: (mid ++ ']' :: post)) = some ('[' :: (mid ++ [']'])) := by
  have hd : (pre ++ '[' :: (mid ++ ']' :: post)).dropWhile (· != '[') =
      '[' :: (mid ++ ']' :: post) :=
    (takeWhile_append_cons _ pre '[' _
      (fun c hc => by simp [hpre c hc]) (by simp)).2
  have hrev : ('[' :: (mid ++ ']' :: post)).reverse =
      post.reverse ++ ']' :: (mid.reverse ++ ['[']) := by
    simp
  have htw : (post.reverse ++ ']' :: (mid.reverse ++ ['['])).takeWhile (· != ']') =
      post.reverse :=
    (takeWhile_append_cons _ post.reverse ']' _
      (fun c hc => by simp [hpost c (List.mem_reverse.mp hc)]) (by simp)).1
  have hlen : ('[' :: (mid ++ ']' :: post)).length = mid.length + post.length + 2 := by
    simp; omega
  have hcond : ¬(post.length = mid.length + post.length + 2) := by omega
  have harith : mid.length + post.length + 2 - post.length = mid.length + 2 := by omega
  have htake : ('[' :: (mid ++ ']' :: post)).take (mid.length + 2) =
      '[' :: (mid ++ [']']) := by
    have h1 : (mid ++ ']' :: post).take (mid.length + 1) = mid ++ (']' :: post).take 1 :=
      List.take_append 1
    simp only [List.take_succ_cons, h1]
    simp
  unfold extractArr
  rw [hd]
  simp only [List.isEmpty_cons, Bool.false_eq_true, if_false, hrev, htw,
    List.length_reverse, hlen]
  rw [if_neg hcond, harith, htake]

/-- Witness for C7 (amended) at concrete prose around one array. -/
theorem c7_witness :
    extractArr ("Sure: ".toList ++ '[' :: ("1, 2".toList ++ ']' :: " done".toList))
      = some ('[' :: ("1, 2".toList ++ [']'])) :=
  c7_extraction_greedy "Sure: ".toList "1, 2".toList " done".toList (by decide) (by decide)

/-! ### C9 -/

theorem prefB_refl_append (p t : List Char) : prefB p (p ++ t) = true := by
  induction p with
  | nil => rfl
  | cons a as ih => simp [prefB, ih]

theorem takeWhile_all {α : Type} (p : α → Bool) (l : List α) (h : ∀ x ∈ l, p x = true) :
    l.takeWhile p = l := by
  induction l with
  | nil => rfl
  | cons x xs ih =>
    simp [List.takeWhile_cons, h x (by simp), ih fun y hy => h y (by simp [hy])]

/-- Pattern `.git` cannot match across the boundary of `s ++ ".git"`: if it is a
prefix of `s ++ ".git"` and `s` is nonempty, it is already a prefix of `s`. -/
theorem prefB_git_span (s : List Char) (hne : s ≠ [])
    (h : prefB ".git".toList (s ++ ".git".toList) = true) :
    prefB ".git".toList s = true := by
  match s with
  | [] => exact absurd rfl hne
  | [a] =>
    exfalso
    simp [prefB, Bool.and_eq_true, beq_iff_eq] at h
  | [a, b] =>
    exfalso
    simp [prefB, Bool.and_eq_true, beq_iff_eq] at h
  | [a, b, c] =>
    exfalso
    simp [prefB, Bool.and_eq_true, beq_iff_eq] at h
  | a :: b :: c :: d :: rest =>
    simp [prefB, Bool.and_eq_true, beq_iff_eq] at h ⊢
    exact h

theorem splitFirst_none (pat : List Char) (s : List Char)
    (h : containsSub pat s = false) : splitFirst pat s = none := by
  induction s with
  | nil =>
    simp [containsSub] at h
    simp [splitFirst, h]
  | cons c rest ih =>
    simp only [containsSub, Bool.or_eq_false_iff] at h
    simp [splitFirst, h.1, ih h.2]

theorem splitFirst_at_suffix (stem : List Char)
    (h : containsSub ".git".toList stem = false) :
    splitFirst ".git".toList (stem ++ ".git".toList) = some (stem, []) := by
  induction stem with
  | nil => decide
  | cons c rest ih =>
    simp only [containsSub, Bool.or_eq_false_iff] at h
    have hspan : prefB ".git".toList ((c :: rest) ++ ".git".toList) = false := by
      by_contra hcon
      rw [Bool.not_eq_false] at hcon
      have htrue := prefB_git_span (c :: rest) (by simp) hcon
      rw [h.1] at htrue
      exact absurd htrue (by simp)
    simp only [List.cons_append] at hspan
    simp only [List.cons_append, splitFirst, List.append_eq, hspan, Bool.false_eq_true,
      if_false]
    rw [ih h.2]

theorem ghUrlScan_cons (c : Char) (rest : List Char) :
    ghUrlScan (c :: rest) =
      match ghUrlAt (c :: rest) with
      | some r => some r
      | none => ghUrlScan rest := rfl

/-- C9 counterexample: the name `my.gitrepo` has no trailing `.git` suffix,
yet the code removes its interior `.git` occurrence, while the spec-modelled
trailing-suffix strip leaves the name unchanged. -/
theorem c9_counterexample :
    cleanRepoName "my.gitrepo" = "myrepo" ∧
      stripGitSuffix "my.gitrepo" = "my.gitrepo" ∧
      cleanRepoName "my.gitrepo" ≠ stripGitSuffix "my.gitrepo" :=
  ⟨by decide, by decide, by decide⟩

/-- C9 (amended): the Materializer extracts owner and repository name from
the reference and removes the FIRST occurrence of `.git` anywhere in the
name (`String.prototype.replace` with a string pattern): when the name's
only `.git` occurrence is the trailing suffix this coincides with the
spec's trailing-suffix strip, and a name without `.git` is unchanged, but a
non-trailing occurrence is removed as well. -/
theorem c9_repo_name_parse :
    (∀ stem : List Char, containsSub ".git".toList stem = false →
        cleanRepoName ⟨stem ++ ".git".toList⟩ = ⟨stem⟩ ∧
          stripGitSuffix ⟨stem ++ ".git".toList⟩ = ⟨stem⟩) ∧
      (∀ name : String, containsSub ".git".toList name.toList = false →
        cleanRepoName name = name) ∧
      (∀ owner name : List Char, owner ≠ [] → name ≠ [] →
        (∀ c ∈ owner, c ≠ '/') → (∀ c ∈ name, c ≠ '/') →
        matchGithubUrl ⟨"github.com/".toList ++ (owner ++ '/' :: name)⟩
          = some (⟨owner⟩, ⟨name⟩)) := by
  refine ⟨?_, ?_, ?_⟩
  · intro stem hs
    constructor
    · show (match splitFirst ".git".toList (stem ++ ".git".toList) with
        | some (pre, post) => (⟨pre ++ post⟩ : String)
        | none => ⟨stem ++ ".git".toList⟩) = ⟨stem⟩
      rw [splitFirst_at_suffix stem hs]
      simp
    · show (if endsWithB ".git" ⟨stem ++ ".git".toList⟩ then
          (⟨(stem ++ ".git".toList).take ((stem ++ ".git".toList).length - 4)⟩ : String)
        else ⟨stem ++ ".git".toList⟩) = ⟨stem⟩
      have hend : endsWithB ".git" ⟨stem ++ ".git".toList⟩ = true := by
        show prefB ".git".toList.reverse (stem ++ ".git".toList).reverse = true
        rw [List.reverse_append]
        exact prefB_refl_append _ _
      rw [if_pos hend]
      have hlen : (stem ++ ".git".toList).length - 4 = stem.length := by
        simp [List.length_append]
      rw [hlen]
      have : (stem ++ ".git".toList).take stem.length = stem := List.take_left stem _
      rw [this]
  · intro name hn
    show (match splitFirst ".git".toList name.toList with
      | some (pre, post) => (⟨pre ++ post⟩ : String)
      | none => name) = name
    rw [splitFirst_none _ _ hn]
  · intro owner name hno hnn howner hname
    have hL : ("github.com/".toList ++ (owner ++ '/' :: name))
        = 'g' :: ("ithub.com/".toList ++ (owner ++ '/' :: name)) := rfl
    have hAt : ghUrlAt ("github.com/".toList ++ (owner ++ '/' :: name))
        = some (⟨owner⟩, ⟨name⟩) := by
      have hp : prefB "github.com/".toList ("github.com/".toList ++ (owner ++ '/' :: name))
          = true := prefB_refl_append _ _
      have h11 : ("github.com/".toList).length = 11 := rfl
      have hdrop : ("github.com/".toList ++ (owner ++ '/' :: name)).drop 11
          = owner ++ '/' :: name := by
        rw [← h11]
        exact List.drop_left _ _
      have htw : (owner ++ '/' :: name).takeWhile (· != '/') = owner :=
        (takeWhile_append_cons _ owner '/' name
          (fun x hx => by simp [howner x hx]) (by simp)).1
      have hdw : (owner ++ '/' :: name).dropWhile (· != '/') = '/' :: name :=
        (takeWhile_append_cons _ owner '/' name
          (fun x hx => by simp [howner x hx]) (by simp)).2
      have hoe : owner.isEmpty = false := by
        cases owner with
        | nil => exact absurd rfl hno
        | cons x xs => rfl
      have htn : name.takeWhile (· != '/') = name :=
        takeWhile_all _ name fun x hx => by simp [hname x hx]
      have hne2 : name.isEmpty = false := by
        cases name with
        | nil => exact absurd rfl hnn
        | cons x xs => rfl
      simp only [ghUrlAt, hp, if_true, hdrop, htw, hdw, hoe, Bool.not_false, htn, hne2]
      simp
    show ghUrlScan ("github.com/".toList ++ (owner ++ '/' :: name)) = some (⟨owner⟩, ⟨name⟩)
    rw [hL, ghUrlScan_cons, ← hL, hAt]

/-- Witness for C9 (amended) at a concrete owner/name and repo names. -/
theorem c9_witness :
    cleanRepoName ⟨"repo".toList ++ ".git".toList⟩ = ⟨"repo".toList⟩ ∧
      cleanRepoName "myrepo" = "myrepo" ∧
      matchGithubUrl ⟨"github.com/".toList ++ ("me".toList ++ '/' :: "repo".toList)⟩
        = some (⟨"me".toList⟩, ⟨"repo".toList⟩) :=
  ⟨(c9_repo_name_parse.1 "repo".toList (by decide)).1,
   c9_repo_name_parse.2.1 "myrepo" (by decide),
   c9_repo_name_parse.2.2 "me".toList "repo".toList (by decide) (by decide)
     (by decide) (by decide)⟩

/-! ### C5 and C10 helpers -/

theorem categorize_mem (tree : List TreeItem) (it : TreeItem)
    (h : it ∈ (categorize tree).1 ∨ it ∈ (categorize tree).2.1 ∨
      it ∈ (categorize tree).2.2) :
    it.type_ = "blob" ∧ excludedPath it.path = false ∧ supportedExt it.path = true := by
  induction tree with
  | nil => simp [categorize] at h
  | cons x rest ih =>
    rcases hc : categorize rest with ⟨hh, hm, hr⟩
    rw [hc] at ih
    simp only [categorize, hc] at h
    by_cases h1 : x.type_ != "blob"
    · rw [if_pos h1] at h
      exact ih h
    · rw [if_neg h1] at h
      by_cases h2 : excludedPath x.path
      · rw [if_pos h2] at h
        exact ih h
      · rw [if_neg h2] at h
        by_cases h3 : !supportedExt x.path
        · rw [if_pos h3] at h
          exact ih h
        · rw [if_neg h3] at h
          have hx : x.type_ = "blob" ∧ excludedPath x.path = false ∧
              supportedExt x.path = true := by
            refine ⟨by simpa using h1, by simpa using h2, by simpa using h3⟩
          by_cases h4 : highPriorityPath x.path
          · rw [if_pos h4] at h
            rcases h with h | h | h
            · rcases List.mem_cons.mp h with rfl | h
              · exact hx
              · exact ih (Or.inl h)
            · exact ih (Or.inr (Or.inl h))
            · exact ih (Or.inr (Or.inr h))
          · rw [if_neg h4] at h
            by_cases h5 : mediumPriorityPath x.path
            · rw [if_pos h5] at h
              rcases h with h | h | h
              · exact ih (Or.inl h)
              · rcases List.mem_cons.mp h with rfl | h
                · exact hx
                · exact ih (Or.inr (Or.inl h))
              · exact ih (Or.inr (Or.inr h))
            · rw [if_neg h5] at h
              rcases h with h | h | h
              · exact ih (Or.inl h)
              · exact ih (Or.inr (Or.inl h))
              · rcases List.mem_cons.mp h with rfl | h
                · exact hx
                · exact ih (Or.inr (Or.inr h))

theorem selectFiles_mem (tree : List TreeItem) (it : TreeItem)
    (h : it ∈ selectFiles tree) :
    it ∈ (categorize tree).1 ∨ it ∈ (categorize tree).2.1 ∨
      it ∈ (categorize tree).2.2 := by
  simp only [selectFiles, List.mem_append] at h
  rcases h with (h | h) | h
  · exact Or.inl (List.take_subset _ _ h)
  · exact Or.inr (Or.inl (List.take_subset _ _ h))
  · exact Or.inr (Or.inr (List.take_subset _ _ h))

/-! ### C5 -/

/-- C5: for every repository tree and every per-file fetch behavior, the
Materializer selects at most 20 files in total — at most 12 from the
high-priority tier, at most 6 from the medium tier and at most 2 regular
files; no selected file's path matches an exclusion pattern, and no
returned file's decoded content exceeds 100,000 characters. -/
theorem c5_materializer_bounds (tree : List TreeItem)
    (fetchFile : TreeItem → Option String) :
    (selectFiles tree).length ≤ 20 ∧
      ((categorize tree).1.take 12).length ≤ 12 ∧
      ((categorize tree).2.1.take 6).length ≤ 6 ∧
      ((categorize tree).2.2.take 2).length ≤ 2 ∧
      (∀ it ∈ selectFiles tree, excludedPath it.path = false) ∧
      (∀ sf ∈ fetchFiles (selectFiles tree) fetchFile, sf.content.length ≤ 100000) := by
  refine ⟨?_, ?_, ?_, ?_, ?_, ?_⟩
  · simp only [selectFiles, List.length_append, List.length_take]
    omega
  · simp only [List.length_take]
    omega
  · simp only [List.length_take]
    omega
  · simp only [List.length_take]
    omega
  · intro it h
    exact (categorize_mem tree it (selectFiles_mem tree it h)).2.1
  · intro sf h
    rcases List.mem_filterMap.mp h with ⟨it, _, hit⟩
    rcases hff : fetchFile it with _ | content
    · simp only [hff] at hit
      exact absurd hit (by simp)
    · simp only [hff] at hit
      by_cases hlen : content.length > 100000
      · rw [if_pos hlen] at hit
        simp at hit
      · rw [if_neg hlen] at hit
        simp only [Option.some.injEq] at hit
        rw [← hit]
        show content.length ≤ 100000
        omega

/-- Witness for C5 at a one-file tree. -/
theorem c5_witness :
    excludedPath itemAuth.path = false ∧ sfAuth.content.length ≤ 100000 :=
  ⟨(c5_materializer_bounds treeAuth fetchAuth).2.2.2.2.1 itemAuth (by decide),
   (c5_materializer_bounds treeAuth fetchAuth).2.2.2.2.2 sfAuth (by decide)⟩

/-! ### C10 -/

/-- C10: the exclusion filter runs before priority classification, so an
item whose path matches an exclusion pattern — even one also matching a
high- or medium-priority keyword — is never placed in any tier and never
selected for fetching. -/
theorem c10_excluded_never_selected (tree : List TreeItem) (it : TreeItem)
    (hex : excludedPath it.path = true) :
    it ∉ (categorize tree).1 ∧ it ∉ (categorize tree).2.1 ∧
      it ∉ (categorize tree).2.2 ∧ it ∉ selectFiles tree := by
  refine ⟨?_, ?_, ?_, ?_⟩
  · intro h
    have := (categorize_mem tree it (Or.inl h)).2.1
    rw [hex] at this
    exact absurd this (by simp)
  · intro h
    have := (categorize_mem tree it (Or.inr (Or.inl h))).2.1
    rw [hex] at this
    exact absurd this (by simp)
  · intro h
    have := (categorize_mem tree it (Or.inr (Or.inr h))).2.1
    rw [hex] at this
    exact absurd this (by simp)
  · intro h
    have := (categorize_mem tree it (selectFiles_mem tree it h)).2.1
    rw [hex] at this
    exact absurd this (by simp)

/-- Witness for C10: `src/auth.test.ts` matches both the `/auth/i`
high-priority pattern and the `.test.ts` exclusion, and is never selected. -/
theorem c10_witness :
    highPriorityPath itemAuthTest.path = true ∧
      excludedPath itemAuthTest.path = true ∧
      itemAuthTest ∉ selectFiles [itemAuthTest] :=
  ⟨by decide, by decide,
   (c10_excluded_never_selected [itemAuthTest] itemAuthTest (by decide)).2.2.2⟩
